/-
Verification of the AniMotion retargeting core (Blender/auto_oneclick.py).

The definitions below are a shallow embedding of the Python source into
Lean 4.  Machine floats are modelled by real numbers; the NumPy pose array
of shape (T, L, 3) is modelled by a list of frames, each frame a function
from landmark index and coordinate to a real; mathutils vectors and
quaternions are modelled by explicit structures over the reals; Python
dictionaries are modelled by association lists with Option-valued lookup;
code that raises exceptions is modelled with Except.
-/
import Mathlib

namespace AniMotion

noncomputable section

/-- 3D vector over the reals, modelling mathutils.Vector. -/
structure V3 where
  x : ℝ
  y : ℝ
  z : ℝ

instance : Add V3 where
  add a b := ⟨a.x + b.x, a.y + b.y, a.z + b.z⟩

instance : Sub V3 where
  sub a b := ⟨a.x - b.x, a.y - b.y, a.z - b.z⟩

instance : SMul ℝ V3 where
  smul c v := ⟨c * v.x, c * v.y, c * v.z⟩

instance : Zero V3 where
  zero := ⟨0, 0, 0⟩

/-- Dot product, modelling mathutils Vector.dot. -/
def V3.dot (a b : V3) : ℝ := a.x * b.x + a.y * b.y + a.z * b.z

/-- Cross product, modelling mathutils Vector.cross. -/
def V3.cross (a b : V3) : V3 :=
  ⟨a.y * b.z - a.z * b.y, a.z * b.x - a.x * b.z, a.x * b.y - a.y * b.x⟩

/-- Squared euclidean norm. -/
def V3.normSq (v : V3) : ℝ := v.x ^ 2 + v.y ^ 2 + v.z ^ 2

/-- Euclidean norm, modelling the mathutils Vector.length property. -/
def V3.length (v : V3) : ℝ := Real.sqrt v.normSq

/-- Unit vector in the direction of v, modelling Vector.normalized();
mathutils returns the zero vector unchanged. -/
def V3.normalized (v : V3) : V3 :=
  if v.length = 0 then v else (1 / v.length) • v

/-- Angle between two vectors, modelling Vector.angle (arccos of the
normalized dot product). -/
def V3.angle (a b : V3) : ℝ :=
  Real.arccos (a.dot b / (a.length * b.length))

/-- Quaternion (w, x, y, z) over the reals, modelling mathutils.Quaternion. -/
structure Quat where
  w : ℝ
  x : ℝ
  y : ℝ
  z : ℝ

/-- The identity quaternion: mathutils.Quaternion() and Quaternion((1,0,0,0)). -/
def Quat.identity : Quat := ⟨1, 0, 0, 0⟩

/-- Hamilton product, modelling the mathutils `@` operator on quaternions. -/
def Quat.mul (a b : Quat) : Quat :=
  ⟨a.w * b.w - a.x * b.x - a.y * b.y - a.z * b.z,
   a.w * b.x + a.x * b.w + a.y * b.z - a.z * b.y,
   a.w * b.y - a.x * b.z + a.y * b.w + a.z * b.x,
   a.w * b.z + a.x * b.y - a.y * b.x + a.z * b.w⟩

instance : Mul Quat where
  mul := Quat.mul

/-- Axis-angle quaternion, modelling mathutils.Quaternion(axis, angle);
the source always passes a normalized axis. -/
def Quat.ofAxisAngle (axis : V3) (angle : ℝ) : Quat :=
  ⟨Real.cos (angle / 2), axis.x * Real.sin (angle / 2),
   axis.y * Real.sin (angle / 2), axis.z * Real.sin (angle / 2)⟩

/-- Quaternion of an XYZ Euler whose x and y components are zero, modelling
mathutils.Euler((0, 0, a), "XYZ").to_quaternion().  The source passes the
literals 90 and -90 here, which mathutils reads as radians. -/
def zRotQuat (a : ℝ) : Quat := ⟨Real.cos (a / 2), 0, 0, Real.sin (a / 2)⟩

-- ------------------- CONFIG (auto_oneclick.py lines 15-20) -------------------

def VIDEO_W : ℝ := 640
def VIDEO_H : ℝ := 480
def SCALE : ℝ := 2.0
def START_FRAME : ℕ := 1
def SMOOTH_WINDOW : ℕ := 9
def smoothEps : ℝ := 1e-6

/-- One frame of the raw (T, L, 3) pose array: landmark index and
coordinate index to value. -/
abbrev Frm : Type := ℕ → Fin 3 → ℝ

def zeroFrm : Frm := fun _ _ => 0

/-- moving_average(arr, win) from auto_oneclick.py.  If win < 3 or win is
even the array is returned unchanged.  Otherwise the time axis is padded
with win/2 copies of the first and of the last frame (np.pad mode="edge")
and each output frame t is the valid-mode convolution of the padded series
with the uniform kernel np.ones(win)/win, taken independently per landmark
and per coordinate; the kernel is symmetric, so the convolution flip is
immaterial and entry t is the sum of padded entries t..t+win-1 times 1/win. -/
def moving_average (arr : List Frm) (win : ℕ) : List Frm :=
  if win < 3 ∨ win % 2 = 0 then arr
  else
    let pad := win / 2
    let arr_p := List.replicate pad (arr.headD zeroFrm) ++ arr ++
      List.replicate pad (arr.getLastD zeroFrm)
    (List.range (arr_p.length + 1 - win)).map
      (fun t l c => ∑ j ∈ Finset.range win, arr_p.getD (t + j) zeroFrm l c * (1 / (win : ℝ)))

/-- norm_to_world(lm, sx, sy, sz) from auto_oneclick.py. -/
def norm_to_world (lm : Fin 3 → ℝ) (sx sy sz : ℝ) : V3 :=
  ⟨(lm 0 - 0.5) * VIDEO_W / 100.0 * SCALE * sx,
   (lm 1 - 0.5) * VIDEO_H / 100.0 * SCALE * sy,
   -lm 2 * SCALE * sz⟩

/-- mid(a, b) from auto_oneclick.py: componentwise midpoint. -/
def mid (a b : V3) : V3 :=
  ⟨(a.x + b.x) / 2.0, (a.y + b.y) / 2.0, (a.z + b.z) / 2.0⟩

/-- vector_to_quat(vec, rest_axis) from auto_oneclick.py: normalize both
inputs, take the cross product of the normalized vectors, return the
identity quaternion when its length is below 1e-6, otherwise the
axis-angle quaternion about the normalized cross product by the angle
between the two normalized vectors. -/
def vector_to_quat (vec rest_axis : V3) : Quat :=
  let v := vec.normalized
  let r := rest_axis.normalized
  let rot_axis := r.cross v
  if rot_axis.length < 1e-6 then Quat.identity
  else Quat.ofAxisAngle rot_axis.normalized (r.angle v)

/-- BONE_CORRECTIONS from auto_oneclick.py (the unused GLOBAL_CORRECTION
constant is omitted). -/
def BONE_CORRECTIONS : List (String × Quat) :=
  [("mixamorig:LeftArm", zRotQuat (-90)),
   ("mixamorig:RightArm", zRotQuat 90),
   ("mixamorig:Hips", Quat.identity),
   ("mixamorig:Spine", Quat.identity),
   ("mixamorig:LeftUpLeg", Quat.identity),
   ("mixamorig:RightUpLeg", Quat.identity),
   ("mixamorig:Head", Quat.identity)]

/-- BONE_CORRECTIONS.get(bone_name, identity). -/
def corrOf (name : String) : Quat :=
  (List.lookup name BONE_CORRECTIONS).getD Quat.identity

/-- A row of the bone_mappings table: bone name, from key, to key. -/
abbrev BoneMap : Type := String × String × String

/-- bone_mappings from apply_quaternion_animation. -/
def bone_mappings : List BoneMap :=
  [("mixamorig:Hips", "hip_center", "shoulder_center"),
   ("mixamorig:Spine", "hip_center", "shoulder_center"),
   ("mixamorig:LeftArm", "left_shoulder", "left_elbow"),
   ("mixamorig:RightArm", "right_shoulder", "right_elbow"),
   ("mixamorig:LeftUpLeg", "left_hip", "left_knee"),
   ("mixamorig:RightUpLeg", "right_hip", "right_knee")]

/-- A frame of world-space landmark positions (index per mp_indices). -/
abbrev FrameW : Type := ℕ → V3

/-- The per-frame positions dictionary from apply_quaternion_animation,
built with the mp_indices table (nose 0, shoulders 11/12, elbows 13/14,
wrists 15/16, hips 23/24, knees 25/26, ankles 27/28). -/
def positionsOf (lm : FrameW) : List (String × V3) :=
  [("hip_center", mid (lm 23) (lm 24)),
   ("shoulder_center", mid (lm 11) (lm 12)),
   ("nose", lm 0),
   ("left_shoulder", lm 11),
   ("right_shoulder", lm 12),
   ("left_elbow", lm 13),
   ("left_wrist", lm 15),
   ("right_elbow", lm 14),
   ("right_wrist", lm 16),
   ("left_hip", lm 23),
   ("right_hip", lm 24),
   ("left_knee", lm 25),
   ("left_ankle", lm 27),
   ("right_knee", lm 26),
   ("right_ankle", lm 28)]

/-- positions.get(key): dictionary lookup. -/
def posOf (lm : FrameW) (k : String) : Option V3 :=
  List.lookup k (positionsOf lm)

/-- The bone vector to_pos - from_pos of a mapping row in a frame (the
lookups succeed for every row of bone_mappings). -/
def targetVecOf (lm : FrameW) (m : BoneMap) : V3 :=
  (posOf lm m.2.2).getD 0 - (posOf lm m.2.1).getD 0

/-- 3x3 matrix with rows (a b c), (d e f), (g h i). -/
structure Mat3 where
  a : ℝ
  b : ℝ
  c : ℝ
  d : ℝ
  e : ℝ
  f : ℝ
  g : ℝ
  h : ℝ
  i : ℝ

def Mat3.mulVec (M : Mat3) (v : V3) : V3 :=
  ⟨M.a * v.x + M.b * v.y + M.c * v.z,
   M.d * v.x + M.e * v.y + M.f * v.z,
   M.g * v.x + M.h * v.y + M.i * v.z⟩

def Mat3.det (M : Mat3) : ℝ :=
  M.a * (M.e * M.i - M.f * M.h) - M.b * (M.d * M.i - M.f * M.g) +
    M.c * (M.d * M.h - M.e * M.g)

/-- Inverse by the adjugate formula. -/
def Mat3.inv (M : Mat3) : Mat3 :=
  let k := 1 / M.det
  ⟨k * (M.e * M.i - M.f * M.h), k * (M.c * M.h - M.b * M.i), k * (M.b * M.f - M.c * M.e),
   k * (M.f * M.g - M.d * M.i), k * (M.a * M.i - M.c * M.g), k * (M.c * M.d - M.a * M.f),
   k * (M.d * M.h - M.e * M.g), k * (M.b * M.g - M.a * M.h), k * (M.a * M.e - M.b * M.d)⟩

def Mat3.id : Mat3 := ⟨1, 0, 0, 0, 1, 0, 0, 0, 1⟩

/-- An affine world transform (linear part and translation), modelling the
4x4 object matrix_world. -/
structure Affine3 where
  lin : Mat3
  trans : V3

/-- Application of the world matrix to a point. -/
def Affine3.apply (T : Affine3) (p : V3) : V3 := T.lin.mulVec p + T.trans

/-- Application of the inverted world matrix to a point, modelling
rig.matrix_world.inverted() @ p. -/
def Affine3.invApply (T : Affine3) (p : V3) : V3 := T.lin.inv.mulVec (p - T.trans)

def Affine3.id : Affine3 := ⟨Mat3.id, 0⟩

/-- The armature object as the retargeting core sees it: its pose-bone
name set and its world transform. -/
structure Rig where
  bones : List String
  world : Affine3

/-- resolve_bone(rig, name): the name itself, else the part after the last
":" (name.split(":")[-1]).  Returns whether a pose bone resolves. -/
def resolveBone (rig : Rig) (name : String) : Bool :=
  rig.bones.contains name || rig.bones.contains ((name.splitOn ":").getLastD name)

/-- The existing_bones list computed at the top of apply_quaternion_animation:
the mapping rows whose bone resolves in the rig. -/
def existingBones (rig : Rig) : List BoneMap :=
  bone_mappings.filter (fun m => resolveBone rig m.1)

/-- A keyframe channel value: a location or a rotation-quaternion sample. -/
inductive KeyData where
  | loc (p : V3)
  | rot (q : Quat)

/-- One inserted keyframe: bone name, scene frame number, channel value. -/
structure Keyframe where
  bone : String
  frame : ℕ
  data : KeyData

/-- The keyframes one mapping row emits in one frame (the body of the
inner loop of apply_quaternion_animation): skip if a position lookup fails
or the bone vector is degenerate; insert the Hips location keyframe
(inverse world matrix applied to the hip center) when the row is the Hips
row; insert the rotation keyframe correction * vector_to_quat(vec, (0,1,0)). -/
def boneFrameKeys (rig : Rig) (lm : FrameW) (hip_center : V3) (fnum : ℕ)
    (m : BoneMap) : List Keyframe :=
  match posOf lm m.2.1, posOf lm m.2.2 with
  | some from_pos, some to_pos =>
    let target_vector := to_pos - from_pos
    if target_vector.length < 1e-6 then []
    else
      (if m.1 = "mixamorig:Hips" then
        [⟨m.1, fnum, KeyData.loc (rig.world.invApply hip_center)⟩]
      else []) ++
      [⟨m.1, fnum, KeyData.rot (corrOf m.1 * vector_to_quat target_vector ⟨0, 1, 0⟩)⟩]
  | _, _ => []

/-- The keyframes of one frame of the animation loop. -/
def frameKeys (rig : Rig) (lm : FrameW) (fnum : ℕ) : List Keyframe :=
  let hip_center := mid (lm 23) (lm 24)
  (existingBones rig).flatMap (boneFrameKeys rig lm hip_center fnum)

/-- apply_quaternion_animation(rig, landmark_data_world, frame_count) as a
keyframe producer: when no mapping row resolves the function prints an
error and returns without inserting anything; otherwise each frame index
0..T-1 is keyed at scene frame START_FRAME + index. -/
def apply_quaternion_animation (rig : Rig) (frames : ℕ → FrameW) (T : ℕ) :
    List Keyframe :=
  if (existingBones rig).isEmpty then []
  else (List.range T).flatMap (fun i => frameKeys rig (frames i) (START_FRAME + i))

/-- Subject shoulder center of the first world frame (step 4 of the
pipeline): (p_ls + p_rs) / 2. -/
def mpShoulderCenter (first : FrameW) : V3 := (0.5 : ℝ) • (first 11 + first 12)

/-- Subject hip center of the first world frame: (p_lh + p_rh) / 2. -/
def mpHipCenter (first : FrameW) : V3 := (0.5 : ℝ) • (first 23 + first 24)

/-- Step 4 of the pipeline (rig auto-scale and placement), lines 412-428.
Inputs: whether both a hips and a neck bone were found, the world-space
head positions of those bones, the first world frame, and the incoming
rig scale and location.  When hips and neck are found: the uniform scale
rig_torso_len / mp_torso_len is applied only when both torso lengths
exceed 1e-6, and the rig location is then set to the subject hip center
unconditionally.  When either bone is missing nothing is touched.
Returns the resulting (scale, location) of the rig. -/
def calibrateRig (hipsNeckFound : Bool) (rigHipsW rigNeckW : V3)
    (first : FrameW) (scale0 : ℝ) (loc0 : V3) : ℝ × V3 :=
  let mp_torso_len := (mpShoulderCenter first - mpHipCenter first).length
  if hipsNeckFound then
    let rig_torso_len := (rigNeckW - rigHipsW).length
    (if 1e-6 < mp_torso_len ∧ 1e-6 < rig_torso_len then rig_torso_len / mp_torso_len
     else scale0,
     mpHipCenter first)
  else (scale0, loc0)

/-- Errors raised by the module-level pipeline before any output is
written: missing input files (check_inputs_or_die), an empty pose JSON
(load_pose_json), no armature after FBX import (import_mixamo). -/
inductive JobError where
  | fileNotFound
  | emptyPose
  | noArmature

/-- What a completed job leaves behind: the inserted keyframes and the
exported FBX (the export call at line 453 runs whenever control reaches
it, so a finished job always has fbxWritten = true). -/
structure JobOutput where
  keyframes : List Keyframe
  fbxWritten : Bool

/-- The inputs of one job as the pipeline observes them. -/
structure JobCfg where
  jsonExists : Bool
  fbxExists : Bool
  pose : List Frm
  importedArmature : Option Rig

/-- The module-level pipeline of auto_oneclick.py (lines 333-461), with
the external sinks (bake, render) elided: check inputs, load the pose,
smooth it, convert to world coordinates, import the rig, apply the
animation, export the FBX.  Rig calibration (step 4) only adjusts the rig
transform and is modelled separately by calibrateRig. -/
def runPipeline (cfg : JobCfg) : Except JobError JobOutput :=
  if cfg.jsonExists then
    if cfg.fbxExists then
      if cfg.pose.isEmpty then Except.error JobError.emptyPose
      else
        match cfg.importedArmature with
        | none => Except.error JobError.noArmature
        | some rig =>
          let T := cfg.pose.length
          let arr_s := moving_average cfg.pose SMOOTH_WINDOW
          let world : ℕ → FrameW := fun i l => norm_to_world (arr_s.getD i zeroFrm l) 1 1 1
          Except.ok ⟨apply_quaternion_animation rig world T, true⟩
    else Except.error JobError.fileNotFound
  else Except.error JobError.fileNotFound

-- ------------------- CONCRETE INSTANCES USED BY WITNESSES -------------------

/-- Concrete raw frames and a two-frame sequence for the smoothing claims. -/
def exFrmA : Frm := fun l c => (l : ℝ) + (c : ℝ)

def exFrmB : Frm := fun l c => (l : ℝ) * (c : ℝ)

def exArr : List Frm := [exFrmA, exFrmB]

/-- A rig exposing all six mapped bones under their full names, placed at
the identity world transform. -/
def rigFull : Rig :=
  ⟨["mixamorig:Hips", "mixamorig:Spine", "mixamorig:LeftArm", "mixamorig:RightArm",
    "mixamorig:LeftUpLeg", "mixamorig:RightUpLeg"], Affine3.id⟩

/-- A rig whose armature has an empty pose-bone set: no mapping row
resolves. -/
def rigNone : Rig := ⟨[], Affine3.id⟩

/-- World frame with every landmark at the origin: every bone vector is
degenerate. -/
def zeroFrameW : FrameW := fun _ => 0

/-- World frame placing landmark i at (i, 0, 0): every mapped bone vector
is non-degenerate. -/
def exFrameW : FrameW := fun i => ⟨(i : ℝ), 0, 0⟩

/-- World frame with every landmark at (1, 2, 3): shoulder center and hip
center coincide. -/
def cstFrameW : FrameW := fun _ => ⟨1, 2, 3⟩

/-- Job input with valid files, a one-frame pose, and an armature with an
empty bone set. -/
def exCfgNoBones : JobCfg := ⟨true, true, [exFrmA], some rigNone⟩

/-- The mapping row of the root bone. -/
def hipsRow : BoneMap := ("mixamorig:Hips", "hip_center", "shoulder_center")

/-- The mapping row of the spine bone. -/
def spineRow : BoneMap := ("mixamorig:Spine", "hip_center", "shoulder_center")

-- ------------------- HELPER LEMMAS -------------------

@[simp] lemma V3.add_x (a b : V3) : (a + b).x = a.x + b.x := rfl

@[simp] lemma V3.add_y (a b : V3) : (a + b).y = a.y + b.y := rfl

@[simp] lemma V3.add_z (a b : V3) : (a + b).z = a.z + b.z := rfl

@[simp] lemma V3.sub_x (a b : V3) : (a - b).x = a.x - b.x := rfl

@[simp] lemma V3.sub_y (a b : V3) : (a - b).y = a.y - b.y := rfl

@[simp] lemma V3.sub_z (a b : V3) : (a - b).z = a.z - b.z := rfl

@[simp] lemma V3.smul_x (c : ℝ) (v : V3) : (c • v).x = c * v.x := rfl

@[simp] lemma V3.smul_y (c : ℝ) (v : V3) : (c • v).y = c * v.y := rfl

@[simp] lemma V3.smul_z (c : ℝ) (v : V3) : (c • v).z = c * v.z := rfl

@[simp] lemma V3.zero_x : (0 : V3).x = 0 := rfl

@[simp] lemma V3.zero_y : (0 : V3).y = 0 := rfl

@[simp] lemma V3.zero_z : (0 : V3).z = 0 := rfl

@[simp] lemma V3.add_mk (x y z a b c : ℝ) :
    (⟨x, y, z⟩ : V3) + (⟨a, b, c⟩ : V3) = ⟨x + a, y + b, z + c⟩ := rfl

@[simp] lemma V3.sub_mk (x y z a b c : ℝ) :
    (⟨x, y, z⟩ : V3) - (⟨a, b, c⟩ : V3) = ⟨x - a, y - b, z - c⟩ := rfl

@[simp] lemma V3.smul_mk (k x y z : ℝ) :
    k • (⟨x, y, z⟩ : V3) = ⟨k * x, k * y, k * z⟩ := rfl

lemma V3.zero_def : (0 : V3) = ⟨0, 0, 0⟩ := rfl

lemma V3.length_lt_iff (v : V3) {c : ℝ} (hc : 0 < c) :
    v.length < c ↔ v.normSq < c ^ 2 := Real.sqrt_lt' hc

lemma V3.lt_length_iff (v : V3) {c : ℝ} (hc : 0 ≤ c) :
    c < v.length ↔ c ^ 2 < v.normSq := Real.lt_sqrt hc

lemma V3.length_nonneg (v : V3) : 0 ≤ v.length := Real.sqrt_nonneg _

lemma V3.ext {a b : V3} (hx : a.x = b.x) (hy : a.y = b.y) (hz : a.z = b.z) : a = b := by
  cases a
  cases b
  simp_all

lemma V3.length_mk_eq {x y z c : ℝ} (hc : 0 ≤ c) (h : x ^ 2 + y ^ 2 + z ^ 2 = c ^ 2) :
    (⟨x, y, z⟩ : V3).length = c := by
  rw [V3.length, V3.normSq]
  rw [show (⟨x, y, z⟩ : V3).x = x from rfl, show (⟨x, y, z⟩ : V3).y = y from rfl,
    show (⟨x, y, z⟩ : V3).z = z from rfl, h, Real.sqrt_sq hc]

lemma V3.normSq_smul (c : ℝ) (v : V3) : (c • v).normSq = c ^ 2 * v.normSq := by
  simp [V3.normSq]
  ring

lemma V3.sub_self_length (v : V3) : (v - v).length = 0 := by
  have h : (v - v).normSq = 0 := by simp [V3.normSq]
  rw [V3.length, h, Real.sqrt_zero]

lemma V3.length_smul (c : ℝ) (v : V3) : (c • v).length = |c| * v.length := by
  rw [V3.length, V3.normSq_smul, Real.sqrt_mul (sq_nonneg c), Real.sqrt_sq_eq_abs, V3.length]

lemma V3.length_normalized (v : V3) (h : v.length ≠ 0) : v.normalized.length = 1 := by
  have hpos : 0 < v.length := lt_of_le_of_ne v.length_nonneg (Ne.symm h)
  rw [V3.normalized, if_neg h, V3.length_smul, abs_of_pos (by positivity)]
  field_simp

/-- Entry i of the edge-padded time axis is entry min (T-1) (i-pad) of the
original (truncated natural subtraction clamps the left edge at 0). -/
lemma padded_getD {α : Type} (arr : List α) (d : α) (hne : arr ≠ []) (pad i : ℕ)
    (hi : i < arr.length + 2 * pad) :
    (List.replicate pad (arr.headD d) ++ arr ++ List.replicate pad (arr.getLastD d)).getD i d
      = arr.getD (min (arr.length - 1) (i - pad)) d := by
  have hT : 0 < arr.length := List.length_pos.mpr hne
  have hhead : arr.headD d = arr.getD 0 d := by
    cases arr with
    | nil => simp at hne
    | cons a as => simp [List.getD]
  have hlast : arr.getLastD d = arr.getD (arr.length - 1) d := by
    cases arr with
    | nil => simp at hne
    | cons a as => simp [List.getLastD_eq_getLast?, List.getLast?_eq_getElem?, List.getD]
  rcases lt_or_ge i pad with h1 | h1
  · have hmin : min (arr.length - 1) (i - pad) = 0 := by omega
    rw [hmin, List.append_assoc]
    rw [show (List.replicate pad (arr.headD d) ++ (arr ++ List.replicate pad (arr.getLastD d))).getD i d
        = (List.replicate pad (arr.headD d)).getD i d from by
      simp [List.getD, List.getElem?_append, show i < pad by omega]]
    rw [show (List.replicate pad (arr.headD d)).getD i d = arr.headD d from by
      simp [List.getD, List.getElem?_replicate, h1]]
    exact hhead
  · rcases lt_or_ge i (pad + arr.length) with h2 | h2
    · have hmin : min (arr.length - 1) (i - pad) = i - pad := by omega
      rw [hmin, List.append_assoc]
      rw [show (List.replicate pad (arr.headD d) ++ (arr ++ List.replicate pad (arr.getLastD d))).getD i d
          = (arr ++ List.replicate pad (arr.getLastD d)).getD (i - pad) d from by
        simp [List.getD, List.getElem?_append, show ¬ (i < pad) by omega]]
      rw [show (arr ++ List.replicate pad (arr.getLastD d)).getD (i - pad) d = arr.getD (i - pad) d from by
        simp [List.getD, List.getElem?_append, show i - pad < arr.length by omega]]
    · have hmin : min (arr.length - 1) (i - pad) = arr.length - 1 := by omega
      rw [hmin, List.append_assoc]
      rw [show (List.replicate pad (arr.headD d) ++ (arr ++ List.replicate pad (arr.getLastD d))).getD i d
          = (arr ++ List.replicate pad (arr.getLastD d)).getD (i - pad) d from by
        simp [List.getD, List.getElem?_append, show ¬ (i < pad) by omega]]
      rw [show (arr ++ List.replicate pad (arr.getLastD d)).getD (i - pad) d
          = (List.replicate pad (arr.getLastD d)).getD (i - pad - arr.length) d from by
        simp [List.getD, List.getElem?_append, show ¬ (i - pad < arr.length) by omega]]
      rw [show (List.replicate pad (arr.getLastD d)).getD (i - pad - arr.length) d = arr.getLastD d from by
        simp [List.getD, List.getElem?_replicate, show i - pad - arr.length < pad by omega]]
      exact hlast

-- ------------------- C6: smoothing shape and value -------------------

/-- C6.  For every non-empty pose sequence and every odd window of at
least 3, moving_average returns a sequence of the same length (time
dimension; the landmark and coordinate dimensions are fixed by the Frm
type), and the value at output frame t, landmark l, coordinate c is the
centered moving average of the input along the time axis with edge-value
replication at both ends (index min (T-1) (t+j-pad) with truncated
subtraction clamps out-of-range window positions to the first or last
frame), computed independently per landmark and per coordinate. -/
theorem moving_average_centered (arr : List Frm) (win : ℕ)
    (h3 : 3 ≤ win) (hodd : win % 2 = 1) (hne : arr ≠ []) :
    (moving_average arr win).length = arr.length ∧
    ∀ t, t < arr.length → ∀ (l : ℕ) (c : Fin 3),
      (moving_average arr win).getD t zeroFrm l c =
        (∑ j ∈ Finset.range win, arr.getD (min (arr.length - 1) (t + j - win / 2)) zeroFrm l c) / win := by
  have hcond : ¬ (win < 3 ∨ win % 2 = 0) := by omega
  have hlen : (List.replicate (win / 2) (arr.headD zeroFrm) ++ arr ++
      List.replicate (win / 2) (arr.getLastD zeroFrm)).length = arr.length + 2 * (win / 2) := by
    simp; omega
  constructor
  · rw [moving_average, if_neg hcond]
    simp only [List.length_map, List.length_range, hlen]
    omega
  · intro t ht l c
    rw [moving_average, if_neg hcond]
    simp only [hlen]
    have hrange : t < arr.length + 2 * (win / 2) + 1 - win := by omega
    rw [show ((List.range (arr.length + 2 * (win / 2) + 1 - win)).map
        (fun t l c => ∑ j ∈ Finset.range win,
          (List.replicate (win / 2) (arr.headD zeroFrm) ++ arr ++
            List.replicate (win / 2) (arr.getLastD zeroFrm)).getD (t + j) zeroFrm l c * (1 / (win : ℝ)))).getD t zeroFrm
        = fun l c => ∑ j ∈ Finset.range win,
          (List.replicate (win / 2) (arr.headD zeroFrm) ++ arr ++
            List.replicate (win / 2) (arr.getLastD zeroFrm)).getD (t + j) zeroFrm l c * (1 / (win : ℝ)) from by
      simp [List.getD, List.getElem?_map, List.getElem?_range hrange]]
    beta_reduce
    have hterm : ∀ j ∈ Finset.range win,
        (List.replicate (win / 2) (arr.headD zeroFrm) ++ arr ++
          List.replicate (win / 2) (arr.getLastD zeroFrm)).getD (t + j) zeroFrm l c * (1 / (win : ℝ))
        = arr.getD (min (arr.length - 1) (t + j - win / 2)) zeroFrm l c * (1 / (win : ℝ)) := by
      intro j hj
      rw [Finset.mem_range] at hj
      rw [padded_getD arr zeroFrm hne (win / 2) (t + j) (by omega)]
    rw [Finset.sum_congr rfl hterm]
    rw [← Finset.sum_mul]
    rw [mul_one_div]

/-- Witness for C6 at the two-frame sequence exArr with window 3. -/
theorem moving_average_centered_witness :
    (3 ≤ 3 ∧ 3 % 2 = 1 ∧ exArr ≠ []) ∧
    ((moving_average exArr 3).length = exArr.length ∧
     ∀ t, t < exArr.length → ∀ (l : ℕ) (c : Fin 3),
       (moving_average exArr 3).getD t zeroFrm l c =
         (∑ j ∈ Finset.range 3, exArr.getD (min (exArr.length - 1) (t + j - 3 / 2)) zeroFrm l c) / (3 : ℕ)) :=
  ⟨⟨by norm_num, by norm_num, by simp [exArr]⟩,
   moving_average_centered exArr 3 (by norm_num) (by norm_num) (by simp [exArr])⟩

-- ------------------- C7: degenerate window is the identity -------------------

/-- C7.  Smoothing with a window below 3 or with an even window returns
the input sequence unchanged (the function is total: the degenerate case
is a defined no-op branch, not an error). -/
theorem moving_average_noop (arr : List Frm) (win : ℕ)
    (h : win < 3 ∨ win % 2 = 0) : moving_average arr win = arr := by
  rw [moving_average, if_pos h]

/-- Witness for C7 at exArr with the even window 2. -/
theorem moving_average_noop_witness :
    ((2 : ℕ) < 3 ∨ (2 : ℕ) % 2 = 0) ∧ moving_average exArr 2 = exArr :=
  ⟨Or.inl (by norm_num), moving_average_noop exArr 2 (Or.inl (by norm_num))⟩

-- ------------------- C2: calibration degenerate-length guard -------------------

/-- C2 counterexample.  With hips and neck present, a rig torso of length
1, and every subject landmark at (1, 2, 3) (subject torso length 0, i.e.
below the epsilon), calibration keeps scale 1 but still moves the rig
from its original location (0, 0, 0) to the subject hip center (1, 2, 3):
the claim that the rig keeps its original placement is false. -/
theorem calibrate_translation_cex :
    (mpShoulderCenter cstFrameW - mpHipCenter cstFrameW).length ≤ 1e-6 ∧
    calibrateRig true ⟨0, 0, 0⟩ ⟨0, 1, 0⟩ cstFrameW 1 ⟨0, 0, 0⟩ = (1, ⟨1, 2, 3⟩) ∧
    ((⟨1, 2, 3⟩ : V3) ≠ (⟨0, 0, 0⟩ : V3)) := by
  have hcenters : mpShoulderCenter cstFrameW = mpHipCenter cstFrameW := by
    simp [mpShoulderCenter, mpHipCenter, cstFrameW]
  have hlen : (mpShoulderCenter cstFrameW - mpHipCenter cstFrameW).length = 0 := by
    rw [hcenters]
    have : (mpHipCenter cstFrameW - mpHipCenter cstFrameW).normSq = 0 := by
      simp [V3.normSq]
    rw [V3.length, this, Real.sqrt_zero]
  refine ⟨by rw [hlen]; norm_num, ?_, by simp⟩
  have hguard : ¬ ((1e-6 : ℝ) < (mpShoulderCenter cstFrameW - mpHipCenter cstFrameW).length ∧
      (1e-6 : ℝ) < ((⟨0, 1, 0⟩ : V3) - (⟨0, 0, 0⟩ : V3)).length) := by
    rw [hlen]
    intro hc
    have := hc.1
    norm_num at this
  rw [calibrateRig]
  simp only [if_true, if_neg hguard]
  have : mpHipCenter cstFrameW = ⟨1, 2, 3⟩ := by
    simp [mpHipCenter, cstFrameW]
    norm_num
  rw [this]

/-- C2 amended.  When either reference torso length is at most 1e-6 the
uniform-scale branch is skipped: the rig keeps its incoming scale and the
quotient is never formed (so no infinite or NaN scale can arise).  The
root translation, however, is NOT skipped: whenever hips and neck were
found the rig location is still set to the subject hip center; the rig
keeps its original placement only when hips or neck is missing. -/
theorem calibrate_degenerate_guard (rigHipsW rigNeckW : V3) (first : FrameW)
    (scale0 : ℝ) (loc0 : V3)
    (hdeg : (mpShoulderCenter first - mpHipCenter first).length ≤ 1e-6 ∨
            (rigNeckW - rigHipsW).length ≤ 1e-6) :
    (calibrateRig true rigHipsW rigNeckW first scale0 loc0).1 = scale0 ∧
    (calibrateRig true rigHipsW rigNeckW first scale0 loc0).2 = mpHipCenter first ∧
    calibrateRig false rigHipsW rigNeckW first scale0 loc0 = (scale0, loc0) := by
  have hguard : ¬ ((1e-6 : ℝ) < (mpShoulderCenter first - mpHipCenter first).length ∧
      (1e-6 : ℝ) < (rigNeckW - rigHipsW).length) := by
    rcases hdeg with h | h
    · exact fun hc => absurd hc.1 (not_lt.mpr h)
    · exact fun hc => absurd hc.2 (not_lt.mpr h)
  rw [calibrateRig, calibrateRig]
  simp only [if_true, if_neg hguard, Bool.false_eq_true, if_false]
  exact ⟨trivial, trivial, trivial⟩

/-- Witness for C2 at a subject whose landmarks all sit at (1, 2, 3). -/
theorem calibrate_degenerate_guard_witness :
    ((mpShoulderCenter cstFrameW - mpHipCenter cstFrameW).length ≤ 1e-6 ∨
     ((⟨0, 1, 0⟩ : V3) - (⟨0, 0, 0⟩ : V3)).length ≤ 1e-6) ∧
    ((calibrateRig true ⟨0, 0, 0⟩ ⟨0, 1, 0⟩ cstFrameW 1 ⟨5, 5, 5⟩).1 = 1 ∧
     (calibrateRig true ⟨0, 0, 0⟩ ⟨0, 1, 0⟩ cstFrameW 1 ⟨5, 5, 5⟩).2 = mpHipCenter cstFrameW ∧
     calibrateRig false ⟨0, 0, 0⟩ ⟨0, 1, 0⟩ cstFrameW 1 ⟨5, 5, 5⟩ = (1, ⟨5, 5, 5⟩)) := by
  have hdeg : (mpShoulderCenter cstFrameW - mpHipCenter cstFrameW).length ≤ 1e-6 ∨
      ((⟨0, 1, 0⟩ : V3) - (⟨0, 0, 0⟩ : V3)).length ≤ 1e-6 := by
    left
    have hcenters : mpShoulderCenter cstFrameW = mpHipCenter cstFrameW := by
      simp [mpShoulderCenter, mpHipCenter, cstFrameW]
    have : (mpShoulderCenter cstFrameW - mpHipCenter cstFrameW).normSq = 0 := by
      rw [hcenters]; simp [V3.normSq]
    rw [V3.length, this, Real.sqrt_zero]
    norm_num
  exact ⟨hdeg, calibrate_degenerate_guard ⟨0, 0, 0⟩ ⟨0, 1, 0⟩ cstFrameW 1 ⟨5, 5, 5⟩ hdeg⟩

-- ------------------- C4 and C9: the orientation resolver guard -------------------

/-- C4 counterexample.  The guard in vector_to_quat tests the cross
product of the NORMALIZED vectors, not of the inputs.  For the input pair
rest axis (0,1,0) and vector (1e-7, 0, 0) the cross product of the inputs
has magnitude 1e-7, below the 1e-6 threshold, yet the resolver does not
return the identity: normalization first rescales the tiny vector to
(1,0,0), whose cross product with the rest axis has magnitude 1. -/
theorem resolver_threshold_cex :
    ((⟨0, 1, 0⟩ : V3).cross ⟨1e-7, 0, 0⟩).length < 1e-6 ∧
    vector_to_quat ⟨1e-7, 0, 0⟩ ⟨0, 1, 0⟩ ≠ Quat.identity := by
  have hcross : (⟨0, 1, 0⟩ : V3).cross ⟨1e-7, 0, 0⟩ = ⟨0, 0, -1e-7⟩ := by
    rw [V3.cross]
    norm_num
  have hyn : (⟨0, 1, 0⟩ : V3).normalized = ⟨0, 1, 0⟩ := by
    have h1 : (⟨0, 1, 0⟩ : V3).length = 1 := V3.length_mk_eq (by norm_num) (by norm_num)
    rw [V3.normalized, if_neg (by rw [h1]; norm_num), h1]
    norm_num
  have hvl : (⟨1e-7, 0, 0⟩ : V3).length = 1e-7 := V3.length_mk_eq (by norm_num) (by norm_num)
  have hvn : (⟨1e-7, 0, 0⟩ : V3).normalized = ⟨1, 0, 0⟩ := by
    rw [V3.normalized, if_neg (by rw [hvl]; norm_num), hvl]
    norm_num
  constructor
  · rw [hcross, V3.length_mk_eq (c := 1e-7) (by norm_num) (by norm_num)]
    norm_num
  · rw [vector_to_quat]
    simp only [hyn, hvn]
    have haxis : (⟨0, 1, 0⟩ : V3).cross ⟨1, 0, 0⟩ = ⟨0, 0, -1⟩ := by
      rw [V3.cross]
      norm_num
    rw [haxis]
    have halen : (⟨0, 0, -1⟩ : V3).length = 1 := V3.length_mk_eq (by norm_num) (by norm_num)
    rw [if_neg (by rw [halen]; norm_num)]
    have hanorm : (⟨0, 0, -1⟩ : V3).normalized = ⟨0, 0, -1⟩ := by
      rw [V3.normalized, if_neg (by rw [halen]; norm_num), halen]
      norm_num
    have hangle : (⟨0, 1, 0⟩ : V3).angle ⟨1, 0, 0⟩ = Real.pi / 2 := by
      rw [V3.angle, V3.dot]
      norm_num
    rw [hanorm, hangle]
    intro hcontra
    have hw : Real.cos (Real.pi / 2 / 2) = 1 := congrArg Quat.w hcontra
    rw [show Real.pi / 2 / 2 = Real.pi / 4 by ring, Real.cos_pi_div_four] at hw
    have : Real.sqrt 2 < 2 := by
      rw [Real.sqrt_lt' (by norm_num)]
      norm_num
    nlinarith

/-- C4 amended.  For every input pair whose NORMALIZED vectors have a
cross product of magnitude below 1e-6 (nearly parallel or anti-parallel
directions, or an exactly zero vector, which mathutils normalization
leaves at zero), vector_to_quat returns exactly the identity quaternion;
the guarded branch involves no normalization of a near-zero axis, so no
NaN can arise. -/
theorem resolver_degenerate_identity (vec rest_axis : V3)
    (h : (rest_axis.normalized.cross vec.normalized).length < 1e-6) :
    vector_to_quat vec rest_axis = Quat.identity := by
  rw [vector_to_quat]
  simp only [h, if_true]

/-- Witness for C4 at the exactly parallel pair (0,2,0) and (0,1,0). -/
theorem resolver_degenerate_identity_witness :
    ((⟨0, 1, 0⟩ : V3).normalized.cross (⟨0, 2, 0⟩ : V3).normalized).length < 1e-6 ∧
    vector_to_quat ⟨0, 2, 0⟩ ⟨0, 1, 0⟩ = Quat.identity := by
  have hyn : (⟨0, 1, 0⟩ : V3).normalized = ⟨0, 1, 0⟩ := by
    have h1 : (⟨0, 1, 0⟩ : V3).length = 1 := V3.length_mk_eq (by norm_num) (by norm_num)
    rw [V3.normalized, if_neg (by rw [h1]; norm_num), h1]
    norm_num
  have hvn : (⟨0, 2, 0⟩ : V3).normalized = ⟨0, 1, 0⟩ := by
    have h2 : (⟨0, 2, 0⟩ : V3).length = 2 := V3.length_mk_eq (by norm_num) (by norm_num)
    rw [V3.normalized, if_neg (by rw [h2]; norm_num), h2]
    norm_num
  have h : ((⟨0, 1, 0⟩ : V3).normalized.cross (⟨0, 2, 0⟩ : V3).normalized).length < 1e-6 := by
    rw [hyn, hvn]
    rw [show (⟨0, 1, 0⟩ : V3).cross ⟨0, 1, 0⟩ = ⟨0, 0, 0⟩ from by rw [V3.cross]; norm_num]
    rw [V3.length_mk_eq (c := 0) le_rfl (by norm_num)]
    norm_num
  exact ⟨h, resolver_degenerate_identity ⟨0, 2, 0⟩ ⟨0, 1, 0⟩ h⟩

/-- The nearly-parallel but large input of the C9 counterexample. -/
def vec9 : V3 := ⟨1, 1e7, 0⟩

/-- C9 counterexample.  The pair rest axis (0,1,0), vector (1, 1e7, 0)
has an input cross product of magnitude 1, far above the threshold, yet
the resolver returns the identity, not the claimed shortest-arc rotation
(which is not the identity, its scalar part being cos of half a positive
angle): the threshold is tested on the normalized vectors, whose cross
product here has magnitude below 1e-6. -/
theorem resolver_shortest_arc_cex :
    (1e-6 : ℝ) ≤ ((⟨0, 1, 0⟩ : V3).cross vec9).length ∧
    vector_to_quat vec9 ⟨0, 1, 0⟩ = Quat.identity ∧
    Quat.ofAxisAngle ((⟨0, 1, 0⟩ : V3).normalized.cross vec9.normalized).normalized
        ((⟨0, 1, 0⟩ : V3).normalized.angle vec9.normalized) ≠ Quat.identity := by
  have hyn : (⟨0, 1, 0⟩ : V3).normalized = ⟨0, 1, 0⟩ := by
    have h1 : (⟨0, 1, 0⟩ : V3).length = 1 := V3.length_mk_eq (by norm_num) (by norm_num)
    rw [V3.normalized, if_neg (by rw [h1]; norm_num), h1]
    norm_num
  have hs_big : (1e6 : ℝ) < vec9.length := by
    rw [vec9, V3.length, V3.normSq]
    rw [Real.lt_sqrt (by norm_num)]
    norm_num
  have hs_big7 : (1e7 : ℝ) < vec9.length := by
    rw [vec9, V3.length, V3.normSq]
    rw [Real.lt_sqrt (by norm_num)]
    norm_num
  have hs_pos : 0 < vec9.length := lt_trans (by norm_num) hs_big
  have hs_ne : vec9.length ≠ 0 := ne_of_gt hs_pos
  have hvn : vec9.normalized = ⟨1 / vec9.length, 1e7 / vec9.length, 0⟩ := by
    rw [V3.normalized, if_neg hs_ne]
    apply V3.ext
    · rw [V3.smul_x, show vec9.x = 1 from rfl]
      ring
    · rw [V3.smul_y, show vec9.y = (1e7 : ℝ) from rfl]
      ring
    · rw [V3.smul_z, show vec9.z = (0 : ℝ) from rfl]
      ring
  refine ⟨?_, ?_, ?_⟩
  · rw [show (⟨0, 1, 0⟩ : V3).cross vec9 = ⟨0, 0, -1⟩ from by rw [vec9, V3.cross]; norm_num]
    rw [V3.length_mk_eq (c := 1) (by norm_num) (by norm_num)]
    norm_num
  · rw [vector_to_quat]
    simp only [hyn, hvn]
    rw [show (⟨0, 1, 0⟩ : V3).cross ⟨1 / vec9.length, 1e7 / vec9.length, 0⟩
        = ⟨0, 0, -(1 / vec9.length)⟩ from by rw [V3.cross]; norm_num]
    rw [if_pos ?_]
    rw [V3.length_mk_eq (c := 1 / vec9.length) (by positivity) (by ring)]
    calc 1 / vec9.length < 1 / 1e6 := by
          apply one_div_lt_one_div_of_lt (by norm_num) hs_big
      _ = 1e-6 := by norm_num
  · intro hcontra
    have hw : Real.cos ((⟨0, 1, 0⟩ : V3).normalized.angle vec9.normalized / 2) = 1 :=
      congrArg Quat.w hcontra
    have hd_lt : (1e7 : ℝ) / vec9.length < 1 := by
      rw [div_lt_one hs_pos]
      exact hs_big7
    have hangle : (⟨0, 1, 0⟩ : V3).normalized.angle vec9.normalized
        = Real.arccos (1e7 / vec9.length) := by
      rw [V3.angle, hyn, V3.length_normalized vec9 hs_ne,
        V3.length_mk_eq (c := 1) (by norm_num) (by norm_num), hvn, V3.dot]
      norm_num
    rw [hangle] at hw
    have htheta_pos : 0 < Real.arccos (1e7 / vec9.length) := Real.arccos_pos.mpr hd_lt
    have htheta_le : Real.arccos (1e7 / vec9.length) ≤ Real.pi := Real.arccos_le_pi _
    have hcos_lt : Real.cos (Real.arccos (1e7 / vec9.length) / 2) < Real.cos 0 :=
      Real.cos_lt_cos_of_nonneg_of_le_pi le_rfl (by linarith [Real.pi_pos]) (by linarith)
    rw [Real.cos_zero, hw] at hcos_lt
    exact lt_irrefl 1 hcos_lt

/-- C9 amended.  For every input pair whose NORMALIZED vectors have a
cross product of magnitude at least 1e-6, vector_to_quat returns the
shortest-arc axis-angle rotation: its axis is the normalized cross
product of the normalized rest axis and the normalized target vector and
its angle is the angle between those two normalized vectors. -/
theorem resolver_shortest_arc (vec rest_axis : V3)
    (h : ¬ (rest_axis.normalized.cross vec.normalized).length < 1e-6) :
    vector_to_quat vec rest_axis =
      Quat.ofAxisAngle (rest_axis.normalized.cross vec.normalized).normalized
        (rest_axis.normalized.angle vec.normalized) := by
  rw [vector_to_quat]
  simp only [h, if_false]

-- ------------------- TRACK BUILDER CHARACTERIZATION -------------------

/-- Both position lookups of every mapping row succeed, and the bone
vector they induce is targetVecOf. -/
lemma posOf_from_mem (m : BoneMap) (hm : m ∈ bone_mappings) (lm : FrameW) :
    ∃ fp tp, posOf lm m.2.1 = some fp ∧ posOf lm m.2.2 = some tp ∧
      tp - fp = targetVecOf lm m := by
  fin_cases hm <;> exact ⟨_, _, rfl, rfl, rfl⟩

/-- No two rows of the mapping table share a bone name. -/
lemma bone_mappings_name_inj :
    ∀ m ∈ bone_mappings, ∀ p ∈ bone_mappings, m.1 = p.1 → m = p := by decide

/-- Unfolding of the inner-loop body once both lookups are known. -/
lemma boneFrameKeys_eq (rig : Rig) (lm : FrameW) (hipC : V3) (fnum : ℕ) (m : BoneMap)
    (fp tp : V3) (hf : posOf lm m.2.1 = some fp) (ht : posOf lm m.2.2 = some tp) :
    boneFrameKeys rig lm hipC fnum m =
      if (tp - fp).length < 1e-6 then []
      else
        (if m.1 = "mixamorig:Hips" then
          [⟨m.1, fnum, KeyData.loc (rig.world.invApply hipC)⟩]
        else []) ++
        [⟨m.1, fnum, KeyData.rot (corrOf m.1 * vector_to_quat (tp - fp) ⟨0, 1, 0⟩)⟩] := by
  rw [boneFrameKeys, hf, ht]

/-- Membership in the whole keyframe track, frame by frame and row by row. -/
lemma mem_apply_iff (rig : Rig) (frames : ℕ → FrameW) (T : ℕ) (kf : Keyframe) :
    kf ∈ apply_quaternion_animation rig frames T ↔
      ∃ i, i < T ∧ ∃ m, m ∈ existingBones rig ∧
        kf ∈ boneFrameKeys rig (frames i) (mid (frames i 23) (frames i 24)) (START_FRAME + i) m := by
  rw [apply_quaternion_animation]
  by_cases he : (existingBones rig).isEmpty
  · rw [if_pos he]
    rw [List.isEmpty_iff] at he
    simp [he]
  · rw [if_neg he]
    simp only [List.mem_flatMap, List.mem_range, frameKeys]

/-- Every emitted keyframe carries the bone name of its row and the frame
number of its frame. -/
lemma boneFrameKeys_bone_frame (rig : Rig) (lm : FrameW) (hipC : V3) (fnum : ℕ)
    (m : BoneMap) (hm : m ∈ bone_mappings) (kf : Keyframe)
    (h : kf ∈ boneFrameKeys rig lm hipC fnum m) : kf.bone = m.1 ∧ kf.frame = fnum := by
  obtain ⟨fp, tp, hf, ht, -⟩ := posOf_from_mem m hm lm
  rw [boneFrameKeys_eq rig lm hipC fnum m fp tp hf ht] at h
  by_cases hdeg : (tp - fp).length < 1e-6
  · rw [if_pos hdeg] at h
    simp at h
  · rw [if_neg hdeg] at h
    rcases List.mem_append.mp h with h1 | h2
    · by_cases hhips : m.1 = "mixamorig:Hips"
      · rw [if_pos hhips] at h1
        rw [List.mem_singleton] at h1
        rw [h1]
        exact ⟨rfl, rfl⟩
      · rw [if_neg hhips] at h1
        simp at h1
    · rw [List.mem_singleton] at h2
      rw [h2]
      exact ⟨rfl, rfl⟩

/-- A rotation keyframe emitted by a row has the composed corrected value
and certifies that the bone vector of its frame was non-degenerate. -/
lemma boneFrameKeys_rot_val (rig : Rig) (lm : FrameW) (hipC : V3) (fnum : ℕ)
    (m : BoneMap) (hm : m ∈ bone_mappings) (b : String) (fr : ℕ) (q : Quat)
    (h : Keyframe.mk b fr (KeyData.rot q) ∈ boneFrameKeys rig lm hipC fnum m) :
    ¬ (targetVecOf lm m).length < 1e-6 ∧
      q = corrOf m.1 * vector_to_quat (targetVecOf lm m) ⟨0, 1, 0⟩ := by
  obtain ⟨fp, tp, hf, ht, htv⟩ := posOf_from_mem m hm lm
  rw [boneFrameKeys_eq rig lm hipC fnum m fp tp hf ht] at h
  by_cases hdeg : (tp - fp).length < 1e-6
  · rw [if_pos hdeg] at h
    simp at h
  · rw [if_neg hdeg] at h
    rw [← htv]
    refine ⟨hdeg, ?_⟩
    rcases List.mem_append.mp h with h1 | h2
    · by_cases hhips : m.1 = "mixamorig:Hips"
      · rw [if_pos hhips] at h1
        rw [List.mem_singleton] at h1
        exact absurd (congrArg Keyframe.data h1) (by simp)
      · rw [if_neg hhips] at h1
        simp at h1
    · rw [List.mem_singleton] at h2
      have := congrArg Keyframe.data h2
      simp only [KeyData.rot.injEq] at this
      exact this

/-- A location keyframe emitted by a row certifies that the row is the
Hips row, that the value is the inverse world matrix applied to the hip
center, and that the torso vector was non-degenerate. -/
lemma boneFrameKeys_loc_val (rig : Rig) (lm : FrameW) (hipC : V3) (fnum : ℕ)
    (m : BoneMap) (hm : m ∈ bone_mappings) (b : String) (fr : ℕ) (v : V3)
    (h : Keyframe.mk b fr (KeyData.loc v) ∈ boneFrameKeys rig lm hipC fnum m) :
    m.1 = "mixamorig:Hips" ∧ v = rig.world.invApply hipC ∧
      ¬ (targetVecOf lm m).length < 1e-6 := by
  obtain ⟨fp, tp, hf, ht, htv⟩ := posOf_from_mem m hm lm
  rw [boneFrameKeys_eq rig lm hipC fnum m fp tp hf ht] at h
  by_cases hdeg : (tp - fp).length < 1e-6
  · rw [if_pos hdeg] at h
    simp at h
  · rw [if_neg hdeg] at h
    rw [← htv]
    rcases List.mem_append.mp h with h1 | h2
    · by_cases hhips : m.1 = "mixamorig:Hips"
      · rw [if_pos hhips] at h1
        rw [List.mem_singleton] at h1
        have := congrArg Keyframe.data h1
        simp only [KeyData.loc.injEq] at this
        exact ⟨hhips, this, hdeg⟩
      · rw [if_neg hhips] at h1
        simp at h1
    · rw [List.mem_singleton] at h2
      exact absurd (congrArg Keyframe.data h2) (by simp)

/-- A row whose bone vector is degenerate in a frame emits nothing in
that frame. -/
lemma boneFrameKeys_empty_of_deg (rig : Rig) (lm : FrameW) (hipC : V3) (fnum : ℕ)
    (m : BoneMap) (hm : m ∈ bone_mappings)
    (hdeg : (targetVecOf lm m).length < 1e-6) :
    boneFrameKeys rig lm hipC fnum m = [] := by
  obtain ⟨fp, tp, hf, ht, htv⟩ := posOf_from_mem m hm lm
  rw [boneFrameKeys_eq rig lm hipC fnum m fp tp hf ht, htv, if_pos hdeg]

/-- A resolving row with a non-degenerate bone vector emits its rotation
keyframe into the track. -/
lemma rot_key_mem (rig : Rig) (frames : ℕ → FrameW) (T : ℕ) (m : BoneMap)
    (hm : m ∈ bone_mappings) (hres : resolveBone rig m.1 = true) (i : ℕ) (hi : i < T)
    (hnd : ¬ (targetVecOf (frames i) m).length < 1e-6) :
    Keyframe.mk m.1 (START_FRAME + i)
        (KeyData.rot (corrOf m.1 * vector_to_quat (targetVecOf (frames i) m) ⟨0, 1, 0⟩)) ∈
      apply_quaternion_animation rig frames T := by
  rw [mem_apply_iff]
  refine ⟨i, hi, m, List.mem_filter.mpr ⟨hm, hres⟩, ?_⟩
  obtain ⟨fp, tp, hf, ht, htv⟩ := posOf_from_mem m hm (frames i)
  rw [boneFrameKeys_eq rig (frames i) (mid (frames i 23) (frames i 24)) (START_FRAME + i) m fp tp hf ht]
  rw [htv, if_neg hnd]
  exact List.mem_append.mpr (Or.inr (List.mem_singleton.mpr rfl))

/-- Inversion: any keyframe of the track comes from some frame index and
some resolving mapping row carrying its bone name and frame number. -/
lemma track_inv (rig : Rig) (frames : ℕ → FrameW) (T : ℕ) (kf : Keyframe)
    (hkf : kf ∈ apply_quaternion_animation rig frames T) :
    ∃ i m, i < T ∧ m ∈ bone_mappings ∧ resolveBone rig m.1 = true ∧
      kf.bone = m.1 ∧ kf.frame = START_FRAME + i ∧
      kf ∈ boneFrameKeys rig (frames i) (mid (frames i 23) (frames i 24)) (START_FRAME + i) m := by
  rw [mem_apply_iff] at hkf
  obtain ⟨i, hi, m, hmem, hbk⟩ := hkf
  have hm := (List.mem_filter.mp hmem).1
  have hres := (List.mem_filter.mp hmem).2
  obtain ⟨hb, hfr⟩ := boneFrameKeys_bone_frame rig (frames i) _ _ m hm kf hbk
  exact ⟨i, m, hi, hm, hres, hb, hfr, hbk⟩

/-- Witness for C9 at the orthogonal pair (2,0,0) and rest axis (0,1,0). -/
theorem resolver_shortest_arc_witness :
    ¬ ((⟨0, 1, 0⟩ : V3).normalized.cross (⟨2, 0, 0⟩ : V3).normalized).length < 1e-6 ∧
    vector_to_quat ⟨2, 0, 0⟩ ⟨0, 1, 0⟩ =
      Quat.ofAxisAngle ((⟨0, 1, 0⟩ : V3).normalized.cross (⟨2, 0, 0⟩ : V3).normalized).normalized
        ((⟨0, 1, 0⟩ : V3).normalized.angle (⟨2, 0, 0⟩ : V3).normalized) := by
  have hyn : (⟨0, 1, 0⟩ : V3).normalized = ⟨0, 1, 0⟩ := by
    have h1 : (⟨0, 1, 0⟩ : V3).length = 1 := V3.length_mk_eq (by norm_num) (by norm_num)
    rw [V3.normalized, if_neg (by rw [h1]; norm_num), h1]
    norm_num
  have hvn : (⟨2, 0, 0⟩ : V3).normalized = ⟨1, 0, 0⟩ := by
    have h2 : (⟨2, 0, 0⟩ : V3).length = 2 := V3.length_mk_eq (by norm_num) (by norm_num)
    rw [V3.normalized, if_neg (by rw [h2]; norm_num), h2]
    norm_num
  have h : ¬ ((⟨0, 1, 0⟩ : V3).normalized.cross (⟨2, 0, 0⟩ : V3).normalized).length < 1e-6 := by
    rw [hyn, hvn]
    rw [show (⟨0, 1, 0⟩ : V3).cross ⟨1, 0, 0⟩ = ⟨0, 0, -1⟩ from by rw [V3.cross]; norm_num]
    rw [V3.length_mk_eq (c := 1) (by norm_num) (by norm_num)]
    norm_num
  exact ⟨h, resolver_shortest_arc ⟨2, 0, 0⟩ ⟨0, 1, 0⟩ h⟩

-- ------------------- C5: per-frame skip of degenerate bones -------------------

/-- C5.  For every resolving mapping row and every frame index: if the
bone vector of that frame is degenerate (length below 1e-6; by the
characterization lemmas this also covers a failed position lookup, which
emits nothing at all) the bone gets no rotation keyframe at that frame,
and if it is non-degenerate the bone gets its rotation keyframe at that
frame — so a degenerate frame is skipped for that bone only, adjacent
valid frames still keyed, and the track builder is a total function (it
never aborts the job on per-frame data). -/
theorem bone_frame_skip (rig : Rig) (frames : ℕ → FrameW) (T : ℕ) (m : BoneMap)
    (hm : m ∈ bone_mappings) (hres : resolveBone rig m.1 = true) (i : ℕ) (hi : i < T) :
    ((targetVecOf (frames i) m).length < 1e-6 →
      ∀ q, Keyframe.mk m.1 (START_FRAME + i) (KeyData.rot q) ∉
        apply_quaternion_animation rig frames T) ∧
    (¬ (targetVecOf (frames i) m).length < 1e-6 →
      Keyframe.mk m.1 (START_FRAME + i)
          (KeyData.rot (corrOf m.1 * vector_to_quat (targetVecOf (frames i) m) ⟨0, 1, 0⟩)) ∈
        apply_quaternion_animation rig frames T) := by
  constructor
  · intro hdeg q hmem
    obtain ⟨i2, m2, hi2, hm2, hres2, hb, hfr, hbk⟩ := track_inv rig frames T _ hmem
    have hname : m.1 = m2.1 := hb
    have hmm : m = m2 := bone_mappings_name_inj m hm m2 hm2 hname
    have hii : i = i2 := by
      have h2 : START_FRAME + i = START_FRAME + i2 := hfr
      omega
    subst hmm
    subst hii
    obtain ⟨hnd, -⟩ := boneFrameKeys_rot_val rig (frames i) _ _ m hm _ _ q hbk
    exact hnd hdeg
  · intro hnd
    exact rot_key_mem rig frames T m hm hres i hi hnd

/-- Witness for C5: the LeftArm row of the full rig in a one-frame job
whose landmarks sit at (i, 0, 0). -/
theorem bone_frame_skip_witness :
    ("mixamorig:LeftArm", "left_shoulder", "left_elbow") ∈ bone_mappings ∧
    resolveBone rigFull "mixamorig:LeftArm" = true ∧ 0 < 1 ∧
    ((((targetVecOf exFrameW ("mixamorig:LeftArm", "left_shoulder", "left_elbow")).length < 1e-6 →
      ∀ q, Keyframe.mk "mixamorig:LeftArm" (START_FRAME + 0) (KeyData.rot q) ∉
        apply_quaternion_animation rigFull (fun _ => exFrameW) 1) ∧
    (¬ (targetVecOf exFrameW ("mixamorig:LeftArm", "left_shoulder", "left_elbow")).length < 1e-6 →
      Keyframe.mk "mixamorig:LeftArm" (START_FRAME + 0)
          (KeyData.rot (corrOf "mixamorig:LeftArm" *
            vector_to_quat (targetVecOf exFrameW ("mixamorig:LeftArm", "left_shoulder", "left_elbow")) ⟨0, 1, 0⟩)) ∈
        apply_quaternion_animation rigFull (fun _ => exFrameW) 1))) :=
  ⟨by decide, by decide, by norm_num,
   bone_frame_skip rigFull (fun _ => exFrameW) 1
     ("mixamorig:LeftArm", "left_shoulder", "left_elbow") (by decide) (by decide) 0 (by norm_num)⟩

-- ------------------- C8: correction composed on the left -------------------

/-- C8.  For every resolving mapping row and every frame with a
non-degenerate bone vector, the rotation keyframe recorded for that bone
at that frame exists and every rotation value recorded for that bone at
that frame equals the fixed per-bone correction composed on the left with
the resolved rotation vector_to_quat(targetVector, (0,1,0)); the rest
axis (0,1,0) is the same for every row. -/
theorem final_rotation_composition (rig : Rig) (frames : ℕ → FrameW) (T : ℕ) (m : BoneMap)
    (hm : m ∈ bone_mappings) (hres : resolveBone rig m.1 = true) (i : ℕ) (hi : i < T)
    (hnd : ¬ (targetVecOf (frames i) m).length < 1e-6) :
    Keyframe.mk m.1 (START_FRAME + i)
        (KeyData.rot (corrOf m.1 * vector_to_quat (targetVecOf (frames i) m) ⟨0, 1, 0⟩)) ∈
      apply_quaternion_animation rig frames T ∧
    ∀ q, Keyframe.mk m.1 (START_FRAME + i) (KeyData.rot q) ∈
        apply_quaternion_animation rig frames T →
      q = corrOf m.1 * vector_to_quat (targetVecOf (frames i) m) ⟨0, 1, 0⟩ := by
  refine ⟨rot_key_mem rig frames T m hm hres i hi hnd, ?_⟩
  intro q hmem
  obtain ⟨i2, m2, hi2, hm2, hres2, hb, hfr, hbk⟩ := track_inv rig frames T _ hmem
  have hname : m.1 = m2.1 := hb
  have hmm : m = m2 := bone_mappings_name_inj m hm m2 hm2 hname
  have hii : i = i2 := by
    have h2 : START_FRAME + i = START_FRAME + i2 := hfr
    omega
  subst hmm
  subst hii
  exact (boneFrameKeys_rot_val rig (frames i) _ _ m hm _ _ q hbk).2

/-- Witness for C8: the RightArm row of the full rig in a one-frame job
whose landmarks sit at (i, 0, 0). -/
theorem final_rotation_composition_witness :
    ("mixamorig:RightArm", "right_shoulder", "right_elbow") ∈ bone_mappings ∧
    resolveBone rigFull "mixamorig:RightArm" = true ∧ 0 < 1 ∧
    ¬ (targetVecOf exFrameW ("mixamorig:RightArm", "right_shoulder", "right_elbow")).length < 1e-6 ∧
    (Keyframe.mk "mixamorig:RightArm" (START_FRAME + 0)
        (KeyData.rot (corrOf "mixamorig:RightArm" *
          vector_to_quat (targetVecOf exFrameW ("mixamorig:RightArm", "right_shoulder", "right_elbow")) ⟨0, 1, 0⟩)) ∈
      apply_quaternion_animation rigFull (fun _ => exFrameW) 1 ∧
    ∀ q, Keyframe.mk "mixamorig:RightArm" (START_FRAME + 0) (KeyData.rot q) ∈
        apply_quaternion_animation rigFull (fun _ => exFrameW) 1 →
      q = corrOf "mixamorig:RightArm" *
        vector_to_quat (targetVecOf exFrameW ("mixamorig:RightArm", "right_shoulder", "right_elbow")) ⟨0, 1, 0⟩) := by
  have hnd : ¬ (targetVecOf exFrameW ("mixamorig:RightArm", "right_shoulder", "right_elbow")).length < 1e-6 := by
    rw [show targetVecOf exFrameW ("mixamorig:RightArm", "right_shoulder", "right_elbow")
        = exFrameW 14 - exFrameW 12 from rfl]
    rw [show exFrameW 14 - exFrameW 12 = (⟨2, 0, 0⟩ : V3) from by
      rw [exFrameW, exFrameW]
      norm_num]
    rw [V3.length_mk_eq (c := 2) (by norm_num) (by norm_num)]
    norm_num
  exact ⟨by decide, by decide, by norm_num, hnd,
    final_rotation_composition rigFull (fun _ => exFrameW) 1
      ("mixamorig:RightArm", "right_shoulder", "right_elbow") (by decide) (by decide) 0
      (by norm_num) hnd⟩

-- ------------------- C3: the root translation keyframe -------------------

/-- C3 amended.  In every frame whose torso vector (hip center to
shoulder center, the joint pair of the Hips row) is non-degenerate and in
which a Hips bone resolves, a translation keyframe is recorded for the
root bone with location equal to the hip center transformed by the
inverse of the rig world transform; in a frame whose torso vector is
degenerate no translation keyframe at all is recorded for the root
bone. -/
theorem hips_translation_keyframe (rig : Rig) (frames : ℕ → FrameW) (T i : ℕ) (hi : i < T)
    (hres : resolveBone rig "mixamorig:Hips" = true) :
    (¬ (targetVecOf (frames i) hipsRow).length < 1e-6 →
      Keyframe.mk "mixamorig:Hips" (START_FRAME + i)
          (KeyData.loc (rig.world.invApply (mid (frames i 23) (frames i 24)))) ∈
        apply_quaternion_animation rig frames T) ∧
    ((targetVecOf (frames i) hipsRow).length < 1e-6 →
      ∀ v, Keyframe.mk "mixamorig:Hips" (START_FRAME + i) (KeyData.loc v) ∉
        apply_quaternion_animation rig frames T) := by
  constructor
  · intro hnd
    rw [mem_apply_iff]
    refine ⟨i, hi, hipsRow, List.mem_filter.mpr ⟨by decide, hres⟩, ?_⟩
    obtain ⟨fp, tp, hf, ht, htv⟩ := posOf_from_mem hipsRow (by decide) (frames i)
    rw [boneFrameKeys_eq rig (frames i) (mid (frames i 23) (frames i 24)) (START_FRAME + i)
      hipsRow fp tp hf ht]
    rw [htv, if_neg hnd]
    refine List.mem_append.mpr (Or.inl ?_)
    rw [if_pos (show hipsRow.1 = "mixamorig:Hips" from rfl)]
    exact List.mem_singleton.mpr rfl
  · intro hdeg v hmem
    obtain ⟨i2, m2, hi2, hm2, hres2, hb, hfr, hbk⟩ := track_inv rig frames T _ hmem
    obtain ⟨hhips, -, hnd⟩ := boneFrameKeys_loc_val rig (frames i2) _ _ m2 hm2 _ _ v hbk
    have hname : hipsRow.1 = m2.1 := hb
    have hmm : hipsRow = m2 := bone_mappings_name_inj hipsRow (by decide) m2 hm2 hname
    have hii : i = i2 := by
      have h2 : START_FRAME + i = START_FRAME + i2 := hfr
      omega
    rw [← hmm, ← hii] at hnd
    exact hnd hdeg

/-- Witness for C3 (amended form): the full rig at the identity world
transform, one frame with landmarks at (i, 0, 0). -/
theorem hips_translation_keyframe_witness :
    0 < 1 ∧ resolveBone rigFull "mixamorig:Hips" = true ∧
    ((¬ (targetVecOf exFrameW hipsRow).length < 1e-6 →
      Keyframe.mk "mixamorig:Hips" (START_FRAME + 0)
          (KeyData.loc (rigFull.world.invApply (mid (exFrameW 23) (exFrameW 24)))) ∈
        apply_quaternion_animation rigFull (fun _ => exFrameW) 1) ∧
    ((targetVecOf exFrameW hipsRow).length < 1e-6 →
      ∀ v, Keyframe.mk "mixamorig:Hips" (START_FRAME + 0) (KeyData.loc v) ∉
        apply_quaternion_animation rigFull (fun _ => exFrameW) 1)) :=
  ⟨by norm_num, by decide,
   hips_translation_keyframe rigFull (fun _ => exFrameW) 1 0 (by norm_num) (by decide)⟩

/-- C3 counterexample.  A non-empty (one-frame) job on a rig exposing all
six mapped bones, with every landmark of the frame at the origin: the
hip center and shoulder center coincide, so the whole frame (including
the Hips translation keyframe the claim promises for EVERY frame) emits
no keyframe at all — the track is empty. -/
theorem hips_translation_cex :
    (0 : ℕ) < 1 ∧ existingBones rigFull ≠ [] ∧
    apply_quaternion_animation rigFull (fun _ => zeroFrameW) 1 = [] := by
  have hlen0 : ∀ X : V3, (X - X).length < 1e-6 := fun X => by
    rw [V3.sub_self_length]
    norm_num
  have hrow : ∀ m ∈ bone_mappings,
      boneFrameKeys rigFull zeroFrameW (mid (zeroFrameW 23) (zeroFrameW 24))
        (START_FRAME + 0) m = [] := by
    intro m hm
    apply boneFrameKeys_empty_of_deg rigFull zeroFrameW _ _ m hm
    fin_cases hm
    · exact hlen0 (mid (0 : V3) 0)
    · exact hlen0 (mid (0 : V3) 0)
    · exact hlen0 0
    · exact hlen0 0
    · exact hlen0 0
    · exact hlen0 0
  refine ⟨by norm_num, by decide, ?_⟩
  rw [apply_quaternion_animation, if_neg (by decide : ¬ ((existingBones rigFull).isEmpty = true))]
  rw [show List.range 1 = [0] from rfl]
  simp only [List.flatMap_cons, List.flatMap_nil, List.append_nil]
  rw [frameKeys]
  rw [show existingBones rigFull = bone_mappings from by decide]
  exact List.flatMap_eq_nil_iff.mpr hrow

-- ------------------- C10: Hips and Spine coincide -------------------

/-- C10.  The Hips and Spine rows share the same source joint pair, both
their corrections are the identity quaternion, and (the rest axis being
the same (0,1,0) for every row) in every frame of every job in which
both bones resolve they receive exactly the same rotation-quaternion
keyframe values. -/
theorem hips_spine_equal_rotation (rig : Rig) (frames : ℕ → FrameW) (T : ℕ)
    (hH : resolveBone rig "mixamorig:Hips" = true)
    (hS : resolveBone rig "mixamorig:Spine" = true) :
    hipsRow ∈ bone_mappings ∧ spineRow ∈ bone_mappings ∧ hipsRow.2 = spineRow.2 ∧
    corrOf "mixamorig:Hips" = Quat.identity ∧ corrOf "mixamorig:Spine" = Quat.identity ∧
    ∀ i q, i < T →
      (Keyframe.mk "mixamorig:Hips" (START_FRAME + i) (KeyData.rot q) ∈
          apply_quaternion_animation rig frames T ↔
       Keyframe.mk "mixamorig:Spine" (START_FRAME + i) (KeyData.rot q) ∈
          apply_quaternion_animation rig frames T) := by
  refine ⟨by decide, by decide, rfl, rfl, rfl, ?_⟩
  intro i q hi
  have htv : targetVecOf (frames i) spineRow = targetVecOf (frames i) hipsRow := rfl
  constructor
  · intro hmem
    obtain ⟨i2, m2, hi2, hm2, hres2, hb, hfr, hbk⟩ := track_inv rig frames T _ hmem
    have hname : hipsRow.1 = m2.1 := hb
    have hmm : hipsRow = m2 := bone_mappings_name_inj hipsRow (by decide) m2 hm2 hname
    have hii : i = i2 := by
      have h2 : START_FRAME + i = START_FRAME + i2 := hfr
      omega
    rw [← hmm, ← hii] at hbk
    obtain ⟨hnd, hq⟩ := boneFrameKeys_rot_val rig (frames i) _ _ hipsRow (by decide) _ _ q hbk
    rw [hq]
    rw [show corrOf hipsRow.1 = corrOf spineRow.1 from rfl,
      show targetVecOf (frames i) hipsRow = targetVecOf (frames i) spineRow from rfl]
    exact rot_key_mem rig frames T spineRow (by decide) hS i hi (by rw [htv]; exact (htv ▸ hnd))
  · intro hmem
    obtain ⟨i2, m2, hi2, hm2, hres2, hb, hfr, hbk⟩ := track_inv rig frames T _ hmem
    have hname : spineRow.1 = m2.1 := hb
    have hmm : spineRow = m2 := bone_mappings_name_inj spineRow (by decide) m2 hm2 hname
    have hii : i = i2 := by
      have h2 : START_FRAME + i = START_FRAME + i2 := hfr
      omega
    rw [← hmm, ← hii] at hbk
    obtain ⟨hnd, hq⟩ := boneFrameKeys_rot_val rig (frames i) _ _ spineRow (by decide) _ _ q hbk
    rw [hq]
    rw [show corrOf spineRow.1 = corrOf hipsRow.1 from rfl,
      show targetVecOf (frames i) spineRow = targetVecOf (frames i) hipsRow from rfl]
    exact rot_key_mem rig frames T hipsRow (by decide) hH i hi (htv ▸ hnd)

/-- Witness for C10: a two-frame job on the full rig. -/
theorem hips_spine_equal_rotation_witness :
    resolveBone rigFull "mixamorig:Hips" = true ∧
    resolveBone rigFull "mixamorig:Spine" = true ∧
    (hipsRow ∈ bone_mappings ∧ spineRow ∈ bone_mappings ∧ hipsRow.2 = spineRow.2 ∧
    corrOf "mixamorig:Hips" = Quat.identity ∧ corrOf "mixamorig:Spine" = Quat.identity ∧
    ∀ i q, i < 2 →
      (Keyframe.mk "mixamorig:Hips" (START_FRAME + i) (KeyData.rot q) ∈
          apply_quaternion_animation rigFull (fun _ => exFrameW) 2 ↔
       Keyframe.mk "mixamorig:Spine" (START_FRAME + i) (KeyData.rot q) ∈
          apply_quaternion_animation rigFull (fun _ => exFrameW) 2)) :=
  ⟨by decide, by decide,
   hips_spine_equal_rotation rigFull (fun _ => exFrameW) 2 (by decide) (by decide)⟩

-- ------------------- C1: zero resolvable bones does not abort -------------------

/-- C1 counterexample.  A job with both input files present, a non-empty
pose, and an imported armature whose pose-bone set resolves none of the
mapping rows: the pipeline does not raise — apply_quaternion_animation
prints an error and returns — and control still reaches the FBX export,
so an output animation file IS produced (with an empty keyframe track),
contradicting the claim that no output file is produced. -/
theorem zero_bones_output_cex :
    existingBones rigNone = [] ∧ exCfgNoBones.pose ≠ [] ∧
    runPipeline exCfgNoBones = Except.ok ⟨[], true⟩ := by
  refine ⟨by decide, ?_, ?_⟩
  · rw [show exCfgNoBones.pose = [exFrmA] from rfl]
    simp
  · rfl

/-- C1 amended.  When the mapping table yields zero resolvable bones in
the imported armature (but the input files exist, the pose is non-empty
and an armature was found), the job is NOT aborted: the animation step
inserts no keyframes and returns normally, the pipeline runs to
completion, and the FBX export still writes an output file — the job
yields an exported rig without any retargeted animation rather than no
output. -/
theorem zero_bones_no_abort (cfg : JobCfg) (rig : Rig)
    (hjson : cfg.jsonExists = true) (hfbx : cfg.fbxExists = true)
    (hpose : cfg.pose.isEmpty = false) (harm : cfg.importedArmature = some rig)
    (hnob : (existingBones rig).isEmpty = true) :
    runPipeline cfg = Except.ok ⟨[], true⟩ := by
  rw [runPipeline]
  rw [hjson, hfbx, hpose, harm]
  simp only [if_true, Bool.false_eq_true, if_false]
  rw [apply_quaternion_animation, if_pos hnob]

/-- Witness for C1 (amended form) at the concrete no-bones job input. -/
theorem zero_bones_no_abort_witness :
    exCfgNoBones.jsonExists = true ∧ exCfgNoBones.fbxExists = true ∧
    exCfgNoBones.pose.isEmpty = false ∧ exCfgNoBones.importedArmature = some rigNone ∧
    (existingBones rigNone).isEmpty = true ∧
    runPipeline exCfgNoBones = Except.ok ⟨[], true⟩ :=
  ⟨rfl, rfl, rfl, rfl, by decide,
   zero_bones_no_abort exCfgNoBones rigNone rfl rfl rfl rfl (by decide)⟩

end

end AniMotion
